import Mathlib

/-!
Shallow embedding of `src/metal/analysis.py` (module `metal.analysis`).

Labels are modelled as `Nat` (the spec restricts labels to non-negative
integers) and label tensors as `List Nat`.  Python's `zip` truncates to the
shorter sequence, exactly like `List.zip`.

`collections.Counter` built only through `Counter.update(zip(gold, pred))`
is, observationally, the multiset of all observation tuples: the only
operations the source performs on it are `update` (multiset sum), `keys()`
emptiness, `max` over keys, and per-key lookup of the accumulated count.
We therefore model the counter as the `List (Nat × Nat)` of all tuples ever
added, in order; `Counter[key]` is `List.count key`, `max` over the keys is
the fold of `max` over the list (identical, since every key occurs at least
once), and the counter is empty iff the list is.

Fallible operations (`compile` raises `ValueError` from `max([])` when the
counter is empty, and `display` propagates it) return `Option`.
-/

namespace Metal

/-- The loop body of `error_buckets`: the source iterates
`for i, (y, l) in enumerate(zip(gold.numpy(), pred.numpy()))` and executes
`buckets[y,l].append(X[i] if X is not None else i)` on a `defaultdict(list)`.
`bucketsGo pairs i key` is the final bucket stored under `key` when the loop
runs over `pairs` starting at index `i`, with `X = None` so indices are
appended; a key never touched holds the empty list. -/
def bucketsGo : List (Nat × Nat) → Nat → Nat × Nat → List Nat
  | [], _, _ => []
  | yl :: rest, i, key => (if key = yl then [i] else []) ++ bucketsGo rest (i + 1) key

/-- `error_buckets(gold, pred, X=None)`, as the function sending each key to
its bucket (the `defaultdict(list)` returns `[]` for absent keys).  Note the
source binds `(y, l)` over `zip(gold, pred)` and stores under `buckets[y,l]`,
so the key is `(gold[i], pred[i])`. -/
def error_buckets (gold pred : List Nat) (key : Nat × Nat) : List Nat :=
  bucketsGo (gold.zip pred) 0 key

/-- State of a `ConfusionMatrix` object: the observation counter (see the
module comment for the multiset-as-list representation), the cached compiled
matrix `self.mat` (`None` at construction), and the two display flags. -/
structure ConfusionMatrix where
  counter : List (Nat × Nat)
  mat : Option (List (List Nat))
  null_pred : Bool
  null_gold : Bool
deriving DecidableEq, Repr

/-- `ConfusionMatrix.__init__(null_pred, null_gold)`: empty counter, no
cached matrix. -/
def ConfusionMatrix.init (null_pred null_gold : Bool) : ConfusionMatrix :=
  ⟨[], none, null_pred, null_gold⟩

/-- `add(gold, pred)`: `self.counter.update(zip(gold.numpy(), pred.numpy()))`,
i.e. the multiset of `(gold[i], pred[i])` tuples is added to the counter. -/
def ConfusionMatrix.add (cm : ConfusionMatrix) (gold pred : List Nat) : ConfusionMatrix :=
  ⟨cm.counter ++ gold.zip pred, cm.mat, cm.null_pred, cm.null_gold⟩

/-- `max([max(tup) for tup in self.counter.keys()])`: the largest label
component occurring in the counter (folding over all tuples gives the same
maximum as folding over the distinct keys). -/
def maxLabel (c : List (Nat × Nat)) : Nat :=
  c.foldr (fun t m => max (max t.1 t.2) m) 0

/-- The untrimmed matrix built by `compile`:
`k = max(...) + 1`, `mat = np.zeros((k, k))`, then `mat[p, y] = v` for each
counter item `(p, y) : v` — so the cell at row `p`, column `y` is the
counter value of key `(p, y)`, and `0` for absent keys. -/
def compileMat (c : List (Nat × Nat)) : List (List Nat) :=
  (List.range (maxLabel c + 1)).map fun p =>
    (List.range (maxLabel c + 1)).map fun y => c.count (p, y)

/-- `compile(trim)`: fails (Python `ValueError` from `max` of an empty
sequence) when the counter is empty; otherwise builds the `k × k` matrix,
drops row 0 when `trim and not self.null_pred` (`mat[1:, :]`), drops
column 0 when `trim and not self.null_gold` (`mat[:, 1:]`), stores the
result in `self.mat` and returns it together with the updated object. -/
def ConfusionMatrix.compile (cm : ConfusionMatrix) (trim : Bool) :
    Option (List (List Nat) × ConfusionMatrix) :=
  if cm.counter = [] then none
  else
    let mat0 := compileMat cm.counter
    let mat1 := if trim && !cm.null_pred then mat0.drop 1 else mat0
    let mat2 := if trim && !cm.null_gold then mat1.map (List.drop 1) else mat1
    some (mat2, ⟨cm.counter, some mat2, cm.null_pred, cm.null_gold⟩)

/-- One printed cell of `display`: either the raw count
(`f"{mat[i,j]:^5d}"`) or a rate with the number of decimal places of its
format specifier (`f"{mat[i,j]/sum(mat[i,1:]):>5.3f}"` — the literal
precision `3`). -/
inductive Cell where
  | count (v : Nat)
  | rate (v : ℚ) (decimalPlaces : Nat)
deriving DecidableEq, Repr

/-- `display(counts, indent, spacing, decimals, mark_diag)`, modelled at the
level of the numeric cell values it renders, one inner list per printed data
row.  `indent`/`spacing` produce only whitespace, the header line holds only
column labels, and `mark_diag` overwrites one space with `*`; none of these
affect any cell value, so they are not part of the result.  Row `i = 0` is
skipped unless `null_pred`, column `j = 0` unless `null_gold`.  A count cell
renders `mat[i,j]`; a rate cell renders `mat[i,j] / sum(mat[i,1:])` with the
hard-coded 3-decimal format specifier (the `decimals` argument is never read
by the source).  Python raises `ZeroDivisionError` when a rate cell is
reached whose row sum `sum(mat[i,1:])` is zero; that failure is modelled as
`none` for the whole call. -/
def ConfusionMatrix.display (cm : ConfusionMatrix) (counts : Bool)
    (indent spacing decimals : Nat) (mark_diag : Bool) :
    Option (List (List Cell) × ConfusionMatrix) :=
  match cm.compile false with
  | none => none
  | some (mat, cm2) =>
    let m := mat.length
    let n := (mat.getD 0 []).length
    let visRow := fun (i : Nat) => !(i == 0 && !cm.null_pred)
    let visCol := fun (j : Nat) => !(j == 0 && !cm.null_gold)
    if !counts && ((List.range m).any fun i =>
        visRow i && (List.range n).any visCol &&
          ((mat.getD i []).drop 1).sum == 0) then
      none
    else
      some ((List.range m).filterMap fun i =>
        if visRow i then
          some ((List.range n).filterMap fun j =>
            if visCol j then
              some (if counts then Cell.count ((mat.getD i []).getD j 0)
                else Cell.rate (((mat.getD i []).getD j 0 : ℚ) /
                  (((mat.getD i []).drop 1).sum : ℚ)) 3)
            else none)
        else none, cm2)

/-- A sequence of `add` calls, in order: `addAll cm [(g1, p1), ...]` is
`cm.add(g1, p1); cm.add(g2, p2); ...`. -/
def addAll (cm : ConfusionMatrix) (calls : List (List Nat × List Nat)) : ConfusionMatrix :=
  calls.foldl (fun c gp => c.add gp.1 gp.2) cm

/-! ### Helper lemmas -/

theorem count_cons_eq (hd x : Nat × Nat) (tl : List (Nat × Nat)) :
    (hd :: tl).count x = tl.count x + if x = hd then 1 else 0 := by
  rw [List.count_cons]
  by_cases h : x = hd
  · simp [h]
  · have h2 : ¬((hd == x) = true) := by
      simp only [beq_iff_eq]
      exact fun e => h e.symm
    rw [if_neg h2, if_neg h]

theorem bucketsGo_length (l : List (Nat × Nat)) (i : Nat) (key : Nat × Nat) :
    (bucketsGo l i key).length = l.count key := by
  induction l generalizing i with
  | nil => simp [bucketsGo]
  | cons yl rest ih =>
    rw [bucketsGo, List.length_append, ih (i + 1), count_cons_eq]
    by_cases h : key = yl <;> simp [h, Nat.add_comm]

theorem sum_range_map (f : Nat → Nat) (k : Nat) :
    ((List.range k).map f).sum = ∑ i ∈ Finset.range k, f i := by
  induction k with
  | zero => simp
  | succ n ih => rw [List.range_succ, Finset.sum_range_succ, ← ih]; simp

theorem indicator_double_sum (hd : Nat × Nat) (k : Nat) (h1 : hd.1 < k) (h2 : hd.2 < k) :
    (∑ p ∈ Finset.range k, ∑ y ∈ Finset.range k, (if (p, y) = hd then (1 : Nat) else 0)) = 1 := by
  have step1 : ∀ p y : Nat, (if (p, y) = hd then (1 : Nat) else 0) =
      if p = hd.1 then (if y = hd.2 then 1 else 0) else 0 := by
    intro p y
    by_cases e1 : p = hd.1
    · by_cases e2 : y = hd.2 <;> simp [Prod.ext_iff, e1, e2]
    · simp [Prod.ext_iff, e1]
  simp only [step1]
  have step2 : ∀ p : Nat,
      (∑ y ∈ Finset.range k, if p = hd.1 then (if y = hd.2 then (1 : Nat) else 0) else 0) =
      if p = hd.1 then (∑ y ∈ Finset.range k, if y = hd.2 then (1 : Nat) else 0) else 0 := by
    intro p
    by_cases e1 : p = hd.1 <;> simp [e1]
  simp only [step2]
  rw [Finset.sum_ite_eq' (Finset.range k) hd.1]
  simp only [Finset.mem_range, h1, if_true]
  rw [Finset.sum_ite_eq' (Finset.range k) hd.2]
  simp [h2]

theorem count_double_sum (c : List (Nat × Nat)) (k : Nat)
    (hb : ∀ x ∈ c, x.1 < k ∧ x.2 < k) :
    (∑ p ∈ Finset.range k, ∑ y ∈ Finset.range k, c.count (p, y)) = c.length := by
  induction c with
  | nil => simp
  | cons hd tl ih =>
    have hhd := hb hd (List.mem_cons_self hd tl)
    have htl : ∀ x ∈ tl, x.1 < k ∧ x.2 < k := fun x hx => hb x (List.mem_cons_of_mem hd hx)
    have hcount : ∀ p y : Nat, (hd :: tl).count (p, y) =
        tl.count (p, y) + if (p, y) = hd then 1 else 0 := fun p y => count_cons_eq hd (p, y) tl
    simp only [hcount, Finset.sum_add_distrib, ih htl, List.length_cons,
      indicator_double_sum hd k hhd.1 hhd.2]

theorem maxLabel_cons (hd : Nat × Nat) (tl : List (Nat × Nat)) :
    maxLabel (hd :: tl) = max (max hd.1 hd.2) (maxLabel tl) := rfl

theorem maxLabel_mem_bound (c : List (Nat × Nat)) :
    ∀ x ∈ c, x.1 ≤ maxLabel c ∧ x.2 ≤ maxLabel c := by
  induction c with
  | nil => simp
  | cons hd tl ih =>
    intro x hx
    rcases List.mem_cons.mp hx with h | h
    · subst h; rw [maxLabel_cons]; omega
    · have := ih x h; rw [maxLabel_cons]; omega

theorem compileMat_sum (c : List (Nat × Nat)) :
    (((compileMat c).map List.sum).sum) = c.length := by
  unfold compileMat
  rw [List.map_map, sum_range_map]
  have hrow : ∀ p ∈ Finset.range (maxLabel c + 1),
      (List.sum ∘ fun p => (List.range (maxLabel c + 1)).map fun y => c.count (p, y)) p =
      ∑ y ∈ Finset.range (maxLabel c + 1), c.count (p, y) :=
    fun p _ => sum_range_map _ _
  rw [Finset.sum_congr rfl hrow]
  refine count_double_sum c (maxLabel c + 1) fun x hx => ?_
  have := maxLabel_mem_bound c x hx
  omega

theorem getD_range_map {α : Type} (f : Nat → α) (k i : Nat) (d : α) (h : i < k) :
    ((List.range k).map f).getD i d = f i := by
  rw [List.getD_eq_getElem?_getD, List.getElem?_map]
  simp [List.getElem?_range, h]

theorem compileMat_get (c : List (Nat × Nat)) (p y : Nat)
    (hp : p < maxLabel c + 1) (hy : y < maxLabel c + 1) :
    (((compileMat c).getD p []).getD y 0) = c.count (p, y) := by
  unfold compileMat
  rw [getD_range_map _ _ _ _ hp, getD_range_map _ _ _ _ hy]

theorem maxLabel_append (l1 l2 : List (Nat × Nat)) :
    maxLabel (l1 ++ l2) = max (maxLabel l1) (maxLabel l2) := by
  induction l1 with
  | nil => simp [maxLabel]
  | cons hd tl ih =>
    rw [List.cons_append, maxLabel_cons, maxLabel_cons, ih]
    omega

theorem compileMat_append_comm (l1 l2 : List (Nat × Nat)) :
    compileMat (l1 ++ l2) = compileMat (l2 ++ l1) := by
  have hmax : maxLabel (l1 ++ l2) = maxLabel (l2 ++ l1) := by
    rw [maxLabel_append, maxLabel_append, Nat.max_comm]
  have hc : ∀ key : Nat × Nat, (l1 ++ l2).count key = (l2 ++ l1).count key := by
    intro key
    rw [List.count_append, List.count_append, Nat.add_comm]
  unfold compileMat
  simp only [hmax, hc]

theorem zip_take_min (l1 l2 : List Nat) :
    l1.zip l2 = (l1.take (min l1.length l2.length)).zip (l2.take (min l1.length l2.length)) := by
  induction l1 generalizing l2 with
  | nil => simp
  | cons a t1 ih =>
    cases l2 with
    | nil => simp
    | cons b t2 =>
      simp only [List.length_cons, Nat.succ_min_succ, List.take_succ_cons, List.zip_cons_cons]
      rw [← ih t2]

theorem addAll_counter (cm : ConfusionMatrix) (calls : List (List Nat × List Nat)) :
    (addAll cm calls).counter =
      cm.counter ++ (calls.map fun gp => gp.1.zip gp.2).flatten := by
  induction calls generalizing cm with
  | nil => simp [addAll]
  | cons hd tl ih =>
    simp only [addAll, List.foldl_cons, List.map_cons, List.flatten_cons] at *
    rw [ih, ConfusionMatrix.add, List.append_assoc]

theorem compile_false_eq (cm : ConfusionMatrix) (h : cm.counter ≠ []) :
    cm.compile false = some (compileMat cm.counter,
      ⟨cm.counter, some (compileMat cm.counter), cm.null_pred, cm.null_gold⟩) := by
  unfold ConfusionMatrix.compile
  rw [if_neg h]
  simp

theorem compile_true_eq (cm : ConfusionMatrix) (h : cm.counter ≠ []) :
    cm.compile true = some (
      (if cm.null_gold then
        (if cm.null_pred then compileMat cm.counter else (compileMat cm.counter).drop 1)
      else
        (if cm.null_pred then compileMat cm.counter
          else (compileMat cm.counter).drop 1).map (List.drop 1)),
      ⟨cm.counter, some
        (if cm.null_gold then
          (if cm.null_pred then compileMat cm.counter else (compileMat cm.counter).drop 1)
        else
          (if cm.null_pred then compileMat cm.counter
            else (compileMat cm.counter).drop 1).map (List.drop 1)),
        cm.null_pred, cm.null_gold⟩) := by
  unfold ConfusionMatrix.compile
  rw [if_neg h]
  cases hnp : cm.null_pred <;> cases hng : cm.null_gold <;> simp

theorem compile_map_fst_comm (l1 l2 : List (Nat × Nat)) (mo1 mo2 : Option (List (List Nat)))
    (np ng trim : Bool) :
    ((⟨l1 ++ l2, mo1, np, ng⟩ : ConfusionMatrix).compile trim).map Prod.fst =
    ((⟨l2 ++ l1, mo2, np, ng⟩ : ConfusionMatrix).compile trim).map Prod.fst := by
  by_cases he : l1 ++ l2 = []
  · have he2 : l2 ++ l1 = [] := by
      rcases List.append_eq_nil.mp he with ⟨e1, e2⟩
      rw [e1, e2]
      rfl
    simp [ConfusionMatrix.compile, he, he2]
  · have he2 : l2 ++ l1 ≠ [] := by
      intro h
      rcases List.append_eq_nil.mp h with ⟨e1, e2⟩
      exact he (by rw [e1, e2]; rfl)
    simp only [ConfusionMatrix.compile, he, he2, if_neg, if_false,
      compileMat_append_comm l1 l2]
    simp [compileMat_append_comm l1 l2]

/-! ### Claim theorems -/

/-- C1: the spec claims `error_buckets(gold, pred)` is keyed by
`(predictedLabel, goldLabel)`, so that on gold=[1,1,2,2], pred=[1,2,1,2] the
bucket at (2,1) would be [1] and the bucket at (1,2) would be [2].  The code
stores under `buckets[y,l]` with `(y, l)` drawn from `zip(gold, pred)`, i.e.
keys are `(goldLabel, predictedLabel)`: position 1 (gold 1, pred 2) lands in
bucket (1,2) and position 2 (gold 2, pred 1) in bucket (2,1) — the transpose
of what the claim (and the function's own docstring) states. -/
theorem error_buckets_keys_gold_first :
    error_buckets [1, 1, 2, 2] [1, 2, 1, 2] (2, 1) = [2] ∧
    error_buckets [1, 1, 2, 2] [1, 2, 1, 2] (1, 2) = [1] ∧
    error_buckets [1, 1, 2, 2] [1, 2, 1, 2] (1, 1) = [0] ∧
    error_buckets [1, 1, 2, 2] [1, 2, 1, 2] (2, 2) = [3] := by
  decide

/-- C2: the spec claims cell [p, y] of `compile(trim=false)` counts positions
with pred = p and gold = y.  With gold=[1], pred=[2] the claim puts the single
observation at cell [2, 1]; the code zips `(gold[i], pred[i])` into the
counter and writes `mat[p, y] = v` for each counter key, so the observation
lands at cell [1, 2] instead (rows are gold labels, columns predictions):
the compiled matrix is the transpose of the claimed one. -/
theorem compile_matrix_gold_rows :
    ((ConfusionMatrix.init false false).add [1] [2]).compile false =
      some ([[0, 0, 0], [0, 0, 1], [0, 0, 0]],
        ⟨[(1, 2)], some [[0, 0, 0], [0, 0, 1], [0, 0, 0]], false, false⟩) := by
  decide

/-- C3 (counterexample): the claim says `add` and `error_buckets` fail with a
LengthMismatch error on inputs of differing length.  With gold=[1,2] and
pred=[1], both succeed: `zip` silently drops the unmatched tail, so `add`
records only the single pair (1,1) and `error_buckets` buckets only
position 0 — the second gold label (2) is silently discarded. -/
theorem add_mismatched_lengths_truncates :
    ((ConfusionMatrix.init false false).add [1, 2] [1]).counter = [(1, 1)] ∧
    error_buckets [1, 2] [1] (1, 1) = [0] ∧
    error_buckets [1, 2] [1] (2, 1) = [] := by
  decide

/-- C3 (amended): on sequences of differing length, `add` and `error_buckets`
raise no error; both silently truncate to the common prefix of length
min(len(gold), len(pred)) — they behave exactly as if called on the
truncated inputs, because `zip` stops at the shorter sequence. -/
theorem add_and_buckets_ignore_tail (np ng : Bool) (gold pred : List Nat) (key : Nat × Nat) :
    ((ConfusionMatrix.init np ng).add gold pred).counter =
      ((ConfusionMatrix.init np ng).add (gold.take (min gold.length pred.length))
        (pred.take (min gold.length pred.length))).counter ∧
    error_buckets gold pred key =
      error_buckets (gold.take (min gold.length pred.length))
        (pred.take (min gold.length pred.length)) key := by
  constructor
  · show ([] : List (Nat × Nat)) ++ gold.zip pred = [] ++ _
    rw [← zip_take_min]
  · unfold error_buckets
    rw [← zip_take_min]

/-- C4: `compile` on a ConfusionMatrix whose counter is empty fails
(`max` of the empty key sequence raises), for either trim mode, and
`display` — which starts by calling `compile(trim=False)` — fails the same
way, for any combination of its arguments; no degenerate matrix is
returned. -/
theorem compile_empty_counter_fails (cm : ConfusionMatrix) (trim counts mark_diag : Bool)
    (indent spacing decimals : Nat) (h : cm.counter = []) :
    cm.compile trim = none ∧ cm.display counts indent spacing decimals mark_diag = none := by
  have hc : ∀ t : Bool, cm.compile t = none := by
    intro t
    unfold ConfusionMatrix.compile
    rw [if_pos h]
  refine ⟨hc trim, ?_⟩
  unfold ConfusionMatrix.display
  rw [hc false]

/-- C4 witness: a freshly constructed ConfusionMatrix has an empty counter,
and both `compile` and `display` fail on it. -/
theorem compile_empty_counter_fails_witness :
    (ConfusionMatrix.init false false).counter = [] ∧
    ((ConfusionMatrix.init false false).compile true = none ∧
      (ConfusionMatrix.init false false).display true 0 2 3 true = none) :=
  ⟨rfl, compile_empty_counter_fails (ConfusionMatrix.init false false) true true true 0 2 3 rfl⟩

/-- C5: after any sequence of `add` calls on equal-length gold/pred
sequences that leaves at least one observation, the sum of all cells of
`compile(trim=false)` equals the total number of observation pairs added
across all calls. -/
theorem compile_total_cells_eq_observations (np ng : Bool)
    (calls : List (List Nat × List Nat))
    (hlen : ∀ gp ∈ calls, (gp.1).length = (gp.2).length)
    (hne : (addAll (ConfusionMatrix.init np ng) calls).counter ≠ []) :
    ∃ M cm2, (addAll (ConfusionMatrix.init np ng) calls).compile false = some (M, cm2) ∧
      (M.map List.sum).sum = (calls.map fun gp => (gp.1).length).sum := by
  rw [compile_false_eq _ hne]
  refine ⟨_, _, rfl, ?_⟩
  rw [compileMat_sum, addAll_counter]
  show (([] : List (Nat × Nat)) ++ _).length = _
  rw [List.nil_append, List.length_flatten, List.map_map]
  have hz : ∀ gp ∈ calls, (List.length ∘ fun gp : List Nat × List Nat => gp.1.zip gp.2) gp =
      (fun gp : List Nat × List Nat => gp.1.length) gp := by
    intro gp hgp
    simp only [Function.comp_apply, List.length_zip, hlen gp hgp, Nat.min_self]
  rw [List.map_congr_left hz]

/-- C5 witness: two `add` calls of one observation each give a matrix whose
cells sum to 2. -/
theorem compile_total_cells_eq_observations_witness :
    (∀ gp ∈ [([1], [1]), ([2], [1])], (gp.1 : List Nat).length = (gp.2 : List Nat).length) ∧
    (addAll (ConfusionMatrix.init false false) [([1], [1]), ([2], [1])]).counter ≠ [] ∧
    ∃ M cm2,
      (addAll (ConfusionMatrix.init false false) [([1], [1]), ([2], [1])]).compile false =
        some (M, cm2) ∧
      (M.map List.sum).sum =
        ([([1], [1]), ([2], [1])].map fun gp => (gp.1 : List Nat).length).sum :=
  ⟨by decide, by decide,
    compile_total_cells_eq_observations false false [([1], [1]), ([2], [1])]
      (by decide) (by decide)⟩

/-- C6: for equal-length, nonempty gold/pred and any label pair (p, y) inside
the compiled matrix, the bucket of `error_buckets(gold, pred)` at key (p, y)
has exactly as many entries as cell [p, y] of the matrix produced by a fresh
ConfusionMatrix after `add(gold, pred)` and `compile(trim=false)` (an absent
key gives the empty bucket).  Both sides are keyed `(gold, pred)`-first in
the code, so they agree at every pair. -/
theorem bucket_sizes_match_matrix (np ng : Bool) (gold pred : List Nat) (p y : Nat)
    (hlen : gold.length = pred.length) (hne : gold ≠ [])
    (hp : p < maxLabel (gold.zip pred) + 1) (hy : y < maxLabel (gold.zip pred) + 1) :
    ∃ M cm2, ((ConfusionMatrix.init np ng).add gold pred).compile false = some (M, cm2) ∧
      (error_buckets gold pred (p, y)).length = (M.getD p []).getD y 0 := by
  have hzip : ((ConfusionMatrix.init np ng).add gold pred).counter = gold.zip pred := by
    show ([] : List (Nat × Nat)) ++ gold.zip pred = _
    rw [List.nil_append]
  have hzne : gold.zip pred ≠ [] := by
    cases gold with
    | nil => exact absurd rfl hne
    | cons a t =>
      cases pred with
      | nil => simp at hlen
      | cons b s => simp
  have hcne : ((ConfusionMatrix.init np ng).add gold pred).counter ≠ [] := by
    rw [hzip]; exact hzne
  rw [compile_false_eq _ hcne]
  refine ⟨_, _, rfl, ?_⟩
  rw [hzip, compileMat_get _ _ _ hp hy]
  exact bucketsGo_length _ 0 _

/-- C6 witness: on gold=[1,1,2,2], pred=[1,2,1,2], the bucket at (1,2) and
cell [1,2] of the untrimmed matrix are both of size 1. -/
theorem bucket_sizes_match_matrix_witness :
    ([1, 1, 2, 2] : List Nat).length = ([1, 2, 1, 2] : List Nat).length ∧
    ([1, 1, 2, 2] : List Nat) ≠ [] ∧
    1 < maxLabel (([1, 1, 2, 2] : List Nat).zip [1, 2, 1, 2]) + 1 ∧
    2 < maxLabel (([1, 1, 2, 2] : List Nat).zip [1, 2, 1, 2]) + 1 ∧
    ∃ M cm2,
      ((ConfusionMatrix.init false false).add [1, 1, 2, 2] [1, 2, 1, 2]).compile false =
        some (M, cm2) ∧
      (error_buckets [1, 1, 2, 2] [1, 2, 1, 2] (1, 2)).length = (M.getD 1 []).getD 2 0 :=
  ⟨by decide, by decide, by decide, by decide,
    bucket_sizes_match_matrix false false [1, 1, 2, 2] [1, 2, 1, 2] 1 2
      (by decide) (by decide) (by decide) (by decide)⟩

/-- C7: with at least one observation, `compile(trim=true)` equals
`compile(trim=false)` with exactly row 0 removed when null_pred is false and
exactly column 0 removed (from every remaining row) when null_gold is false,
the two removals composing; no other row or column is removed. -/
theorem compile_trim_drops_null_row_col (cm : ConfusionMatrix) (h : cm.counter ≠ []) :
    ∃ Mf cmf Mt cmt,
      cm.compile false = some (Mf, cmf) ∧ cm.compile true = some (Mt, cmt) ∧
      Mt = (if cm.null_gold then (if cm.null_pred then Mf else Mf.drop 1)
            else (if cm.null_pred then Mf else Mf.drop 1).map (List.drop 1)) :=
  ⟨compileMat cm.counter, _, _, _, compile_false_eq cm h, compile_true_eq cm h, rfl⟩

/-- C7 witness: with one observation at (1,2) and both flags false, trimming
drops exactly row 0 and column 0 of the 3×3 untrimmed matrix. -/
theorem compile_trim_drops_null_row_col_witness :
    ((ConfusionMatrix.init false false).add [1] [2]).counter ≠ [] ∧
    ∃ Mf cmf Mt cmt,
      ((ConfusionMatrix.init false false).add [1] [2]).compile false = some (Mf, cmf) ∧
      ((ConfusionMatrix.init false false).add [1] [2]).compile true = some (Mt, cmt) ∧
      Mt = (if ((ConfusionMatrix.init false false).add [1] [2]).null_gold then
             (if ((ConfusionMatrix.init false false).add [1] [2]).null_pred then Mf
               else Mf.drop 1)
           else (if ((ConfusionMatrix.init false false).add [1] [2]).null_pred then Mf
               else Mf.drop 1).map (List.drop 1)) :=
  ⟨by decide,
    compile_trim_drops_null_row_col ((ConfusionMatrix.init false false).add [1] [2])
      (by decide)⟩

/-- C8: the spec claims rate cells of `display(counts=false)` are formatted
to the requested number of decimal places.  The rendered value is indeed
`mat[i,j] / sum(mat[i,1:])`, but the format specifier is the literal
`>5.3f`: calling display with `decimals = 2` still renders every rate with
3 decimal places — the `decimals` argument is never read.  Evaluated here on
gold=[1,2], pred=[1,2] with `decimals = 2`: every produced cell is a rate
carrying format precision 3. -/
theorem display_rate_ignores_decimals :
    ((ConfusionMatrix.init false false).add [1, 2] [1, 2]).display false 0 2 2 true =
      some ([[Cell.rate 1 3, Cell.rate 0 3], [Cell.rate 0 3, Cell.rate 1 3]],
        ⟨[(1, 1), (2, 2)], some [[0, 0, 0], [0, 1, 0], [0, 0, 1]], false, false⟩) := by
  have h : ((ConfusionMatrix.init false false).add [1, 2] [1, 2]).compile false =
      some ([[0, 0, 0], [0, 1, 0], [0, 0, 1]],
        ⟨[(1, 1), (2, 2)], some [[0, 0, 0], [0, 1, 0], [0, 0, 1]], false, false⟩) := by
    decide
  unfold ConfusionMatrix.display
  rw [h]
  norm_num [List.range_succ, ConfusionMatrix.add, ConfusionMatrix.init, List.filterMap_cons]

/-- C9: the compiled matrix does not depend on the order of two `add` calls:
adding (a,b) then (c,d) and compiling (either trim mode) returns the same
matrix as adding (c,d) then (a,b). -/
theorem add_order_irrelevant (np ng trim : Bool) (a b c d : List Nat)
    (hab : a.length = b.length) (hcd : c.length = d.length) :
    ((((ConfusionMatrix.init np ng).add a b).add c d).compile trim).map Prod.fst =
    ((((ConfusionMatrix.init np ng).add c d).add a b).compile trim).map Prod.fst :=
  compile_map_fst_comm (a.zip b) (c.zip d) none none np ng trim

/-- C9 witness: adding ([1],[2]) and ([0],[1]) in either order compiles to
the same matrix. -/
theorem add_order_irrelevant_witness :
    ([1] : List Nat).length = ([2] : List Nat).length ∧
    ([0] : List Nat).length = ([1] : List Nat).length ∧
    ((((ConfusionMatrix.init false false).add [1] [2]).add [0] [1]).compile true).map Prod.fst =
    ((((ConfusionMatrix.init false false).add [0] [1]).add [1] [2]).compile true).map Prod.fst :=
  ⟨by decide, by decide,
    add_order_irrelevant false false true [1] [2] [0] [1] (by decide) (by decide)⟩

/-- C10: `display` (with its default arguments) recompiles untrimmed and
caches that matrix: after the call, the stored `mat` field is the untrimmed
k×k matrix — overwriting whatever an earlier `compile(trim=true)` cached —
while the counter and the two flags are unchanged. -/
theorem display_caches_untrimmed (cm : ConfusionMatrix) (h : cm.counter ≠ []) :
    ∃ lines, cm.display true 0 2 3 true =
      some (lines, ⟨cm.counter, some (compileMat cm.counter), cm.null_pred, cm.null_gold⟩) := by
  unfold ConfusionMatrix.display
  rw [compile_false_eq _ h]
  simp

/-- C10 witness: after one observation and a trimmed compile, display
replaces the cached matrix with the untrimmed one and preserves counter and
flags. -/
theorem display_caches_untrimmed_witness :
    ((ConfusionMatrix.init false false).add [1] [1]).counter ≠ [] ∧
    ∃ lines, ((ConfusionMatrix.init false false).add [1] [1]).display true 0 2 3 true =
      some (lines, ⟨[(1, 1)], some (compileMat [(1, 1)]), false, false⟩) :=
  ⟨by decide,
    display_caches_untrimmed ((ConfusionMatrix.init false false).add [1] [1]) (by decide)⟩

end Metal
